import Mathlib

/-!
Shallow embedding of the utility functions of the python-utils repository
(modules `ben_python_utils/processing/basic.py`, `basic_process.py`,
`ben_python_utils/processing/dataframe.py` and `ben_python_utils/io/file.py`)
together with proofs settling the specification claims about them.

Python dynamic values are modelled by the inductive `PyVal`, Python runtime
type objects by `PyType`, and raised exceptions by `Except` with error kind
`PyErr`.  Behaviour of external library calls (pandas, os.path) that the
source relies on is modelled in clearly marked definitions.
-/

namespace PyUtils

/-- Kinds of Python exceptions raised by the modelled functions. -/
inductive PyErr where
  | typeError
  | valueError
  | indexError
  | keyError
  | zeroDivision
deriving DecidableEq

/-- Python runtime type objects occurring in this development. -/
inductive PyType where
  | int
  | bool
  | str
  | nonetype
  | datetime
deriving DecidableEq

/-- Python values: the dynamic universe the modelled functions range over.
The `datetime` constructor stands for the timestamp objects produced by
datetime conversion. -/
inductive PyVal where
  | int (n : Int)
  | bool (b : Bool)
  | str (s : String)
  | pynone
  | datetime (n : Int)
deriving DecidableEq

/-- The runtime type of a value, as returned by Python `type(v)`. -/
def typeOf : PyVal → PyType
  | .int _ => .int
  | .bool _ => .bool
  | .str _ => .str
  | .pynone => .nonetype
  | .datetime _ => .datetime

/-- Modelled from Python semantics: `isinstance(v, t)`.  A value is an
instance of `t` when its runtime type is `t`, or when it is a `bool` and
`t` is `int`, because in Python `bool` is a subclass of `int`. -/
def isInstance (v : PyVal) (t : PyType) : Bool :=
  typeOf v == t || (typeOf v == PyType.bool && t == PyType.int)

instance {ε α : Type} [DecidableEq ε] [DecidableEq α] : DecidableEq (Except ε α) :=
  fun x y =>
    match x, y with
    | .error a, .error b =>
      if h : a = b then isTrue (h ▸ rfl)
      else isFalse (fun hh => h (Except.error.inj hh))
    | .ok a, .ok b =>
      if h : a = b then isTrue (h ▸ rfl)
      else isFalse (fun hh => h (Except.ok.inj hh))
    | .error _, .ok _ => isFalse (fun hh => Except.noConfusion hh)
    | .ok _, .error _ => isFalse (fun hh => Except.noConfusion hh)

/-- A Python dictionary with string keys, modelled as an association list
in insertion order (Python dictionaries preserve insertion order and have
no duplicate keys; lookups take the first binding). -/
abbrev PyDict := List (String × PyVal)

/-- Python `dict.keys()`, in insertion order. -/
def pyKeys (d : PyDict) : List String := d.map Prod.fst

/-- Sequential effectful map over a list, propagating the first raised
exception, as a Python loop or comprehension does. -/
def exceptMap {α β : Type} (f : α → Except PyErr β) : List α → Except PyErr (List β)
  | [] => .ok []
  | a :: l =>
    match f a with
    | .error e => .error e
    | .ok b =>
      match exceptMap f l with
      | .error e => .error e
      | .ok bs => .ok (b :: bs)

/-- Argument shape of the `dict_keys` parameter of `check_type_dict_value`:
omitted (`None`), a single hashable key, or a list of keys. -/
inductive KeysArg where
  | omitted
  | one (k : String)
  | list (ks : List String)

/-- Loop body of `check_type_dict_value`: walk the target keys, look each
one up (a missing key raises `KeyError`), print-and-return `False` on the
first type mismatch, and return `True` at the end. -/
def cdvLoop (d : PyDict) (t : PyType) : List String → Except PyErr Bool
  | [] => .ok true
  | k :: rest =>
    match List.lookup k d with
    | Option.none => .error .keyError
    | Option.some v => if typeOf v ≠ t then .ok false else cdvLoop d t rest

/-- Embedded from `ben_python_utils/processing/basic.py`,
`check_type_dict_value(check_dict, check_type, dict_keys=None)`: the target
keys are all keys when `dict_keys` is `None`, the singleton when it is not a
list, or the given list; every target value must have exactly the type
`check_type` (Python `type(v) != check_type`). -/
def check_type_dict_value (check_dict : PyDict) (check_type : PyType)
    (dict_keys : KeysArg) : Except PyErr Bool :=
  let target_key :=
    match dict_keys with
    | .omitted => pyKeys check_dict
    | .one k => [k]
    | .list ks => ks
  cdvLoop check_dict check_type target_key

/-- Loop body of the strict variant `check_dict_value_type`: raises a
`TypeError` naming the first offending key. -/
def cdtLoop (d : PyDict) (t : PyType) : List String → Except (PyErr × String) Unit
  | [] => .ok ()
  | k :: rest =>
    match List.lookup k d with
    | Option.none => .error (.keyError, k)
    | Option.some v =>
      if typeOf v ≠ t then .error (.typeError, k) else cdtLoop d t rest

/-- Embedded from `ben_python_utils/processing/basic_process.py`,
`check_dict_value_type(check_dict, check_type, dict_keys=None)`: the strict
variant.  Its guard is `if not dict_keys:`, so both `None` and an empty key
list fall back to all keys; on a mismatch it raises a `TypeError` whose
message names the offending key (the error value carries that key). -/
def check_dict_value_type (check_dict : PyDict) (check_type : PyType)
    (dict_keys : Option (List String)) : Except (PyErr × String) Unit :=
  let keys :=
    match dict_keys with
    | Option.none => pyKeys check_dict
    | Option.some [] => pyKeys check_dict
    | Option.some l => l
  cdtLoop check_dict check_type keys

/-- The effective position of a Python index into a list: a negative index
counts from the end. -/
def pyIdx {α : Type} (l : List α) (i : Int) : Int :=
  if i < 0 then i + l.length else i

/-- Python list indexing `l[i]`: negative indices count from the end and
out-of-range indices raise `IndexError`. -/
def pyGet {α : Type} (l : List α) (i : Int) : Except PyErr α :=
  if h : 0 ≤ pyIdx l i ∧ pyIdx l i < l.length then
    .ok (l.get ⟨(pyIdx l i).toNat, by omega⟩)
  else
    .error .indexError

/-- Argument shape of the `index_list` parameter of
`check_type_list_element`: omitted (`None`), a single integer, or a list of
integers. -/
inductive IndexArg where
  | omitted
  | int (n : Int)
  | list (l : List Int)

/-- Type-checking loop of `check_type_list_element`: index into the checked
list (Python indexing, so a bad index raises `IndexError`), print-and-return
`False` on the first type mismatch, else return `True`. -/
def ctleLoop (check_list : List PyVal) (check_type : PyType) :
    List Int → Except PyErr Bool
  | [] => .ok true
  | idx :: rest =>
    match pyGet check_list idx with
    | .error e => .error e
    | .ok v =>
      if typeOf v ≠ check_type then .ok false
      else ctleLoop check_list check_type rest

/-- Embedded from `ben_python_utils/processing/basic.py`,
`check_type_list_element(check_list, check_type, index_list=None)`.  Lines
77-82 build `idx_list` from `index_list`; line 84 then evaluates the
comprehension `[idx for idx in index_list if idx >= len(index_list)]` over
the raw `index_list` argument.  Iterating `None` or an `int` raises
`TypeError`, so only the list shape gets past line 84; there, any index
at least `len(index_list)` (the length of the index list itself) raises
`ValueError` before the element loop runs. -/
def check_type_list_element (check_list : List PyVal) (check_type : PyType)
    (index_list : IndexArg) : Except PyErr Bool :=
  match index_list with
  | .omitted => .error .typeError
  | .int _ => .error .typeError
  | .list l =>
    let check_idx_list := l.filter (fun idx => (l.length : Int) ≤ idx)
    if 0 < check_idx_list.length then .error .valueError
    else ctleLoop check_list check_type l

/-- Python division as used in `get_split_index`: `int(a / split_n)`.  A
zero divisor raises `ZeroDivisionError`; for the non-negative operands the
function produces, `int` of the true quotient is the floor, i.e. natural
division (the model uses exact arithmetic for the float true-division of
CPython). -/
def pyDivNat (a b : Nat) : Except PyErr Nat :=
  if b = 0 then .error .zeroDivision else .ok (a / b)

/-- Argument of `get_split_index`: a list-like object or a mapping. -/
inductive SplitArg where
  | list (l : List PyVal)
  | dict (d : PyDict)

/-- Embedded from `ben_python_utils/processing/basic.py`,
`get_split_index(data, split_n)`: for a mapping the length of its key list
is used, otherwise `len(data)`; the result is
`[int(length * (i + 1) / split_n) for i in range(split_n - 1)]`.  Negative
`split_n` in Python yields the same empty range as `0` and `1` do, which the
natural-number subtraction reproduces. -/
def get_split_index (data : SplitArg) (split_n : Nat) : Except PyErr (List Nat) :=
  match data with
  | .dict d =>
    exceptMap (fun i => pyDivNat ((pyKeys d).length * (i + 1)) split_n)
      (List.range (split_n - 1))
  | .list l =>
    exceptMap (fun i => pyDivNat (l.length * (i + 1)) split_n)
      (List.range (split_n - 1))

/-- Python `lst.pop(lst.index(w))`: remove the first occurrence of `w`
(no-op here if absent; in the source the element is always present). -/
def removeFirst (w : String) : List String → List String
  | [] => []
  | x :: xs => if x = w then xs else x :: removeFirst w xs

/-- Iterated `lst.pop(lst.index(w))`, `n` times. -/
def popLoop (w : String) : Nat → List String → List String
  | 0, l => l
  | n + 1, l => popLoop w n (removeFirst w l)

/-- One iteration of the `for word in tmp_list` body of
`filter_duplicated_word`: read the word at the current iterator position,
and if its count exceeds one, pop its first occurrence `count - 1` times. -/
def fdwStep (l : List String) (i : Nat) (h : i < l.length) : List String :=
  let w := l.get ⟨i, h⟩
  let cnt := l.count w
  if 1 < cnt then popLoop w (cnt - 1) l else l

/-- The CPython `for word in tmp_list` loop over the mutating list: the list
iterator keeps a position `i`, yields `tmp_list[i]` while `i` is in range,
and is not adjusted when the body pops elements.  Fuel bounds the number of
iterations; since `i` grows by one per step and the list never grows,
`l.length + 1` steps always suffice. -/
def fdwLoop : Nat → List String → Nat → List String
  | 0, l, _ => l
  | fuel + 1, l, i =>
    if h : i < l.length then fdwLoop fuel (fdwStep l i h) (i + 1) else l

/-- Modelled from Python: `list(set(xs))` on strings.  CPython enumerates a
set in hash order, which is unspecified; the model returns first-occurrence
order.  This branch is not the subject of any claim. -/
def pyListSet (l : List String) : List String := l.eraseDups

/-- Worker for `pySplit`: scans the character list, cutting whenever the
separator is a prefix of the remainder.  Fuel bounds the scan; each step
consumes at least one character, so `length + 1` steps always suffice. -/
def pySplitAux (sep : List Char) : Nat → List Char → List Char → List (List Char)
  | 0, acc, l => [acc.reverse ++ l]
  | _ + 1, acc, [] => [acc.reverse]
  | fuel + 1, acc, c :: rest =>
    if sep.isPrefixOf (c :: rest) then
      acc.reverse :: pySplitAux sep fuel [] (List.drop (sep.length - 1) rest)
    else
      pySplitAux sep fuel (c :: acc) rest

/-- Modelled from Python: `text.split(sep)` with an explicit non-empty
separator.  Every occurrence of the separator cuts the string, and empty
pieces are kept, so for example splitting `"a  b"` on one space gives
three pieces. -/
def pySplit (text : String) (sep : String) : List String :=
  (pySplitAux sep.data (text.data.length + 1) [] text.data).map
    (fun cs => String.mk cs)

/-- Modelled from Python: `sep.join(parts)`. -/
def pyJoin (sep : String) : List String → String
  | [] => ""
  | [x] => x
  | x :: y :: rest => x ++ sep ++ pyJoin sep (y :: rest)

/-- Embedded from `ben_python_utils/processing/basic.py`,
`filter_duplicated_word(text, sep=' ', reverse=False)`: with `reverse` the
split word list is reversed, the mutate-while-iterating loop pops duplicate
occurrences, and the list is reversed back and joined; without `reverse`
the unique words are joined in unspecified set order. -/
def filter_duplicated_word (text : String) (sep : String) (reverse : Bool) :
    String :=
  if reverse then
    let tmp_list := (pySplit text sep).reverse
    pyJoin sep (fdwLoop (tmp_list.length + 1) tmp_list 0).reverse
  else
    pyJoin sep (pyListSet (pySplit text sep))

/-- A pandas DataFrame, modelled column-oriented: named columns in order,
each holding the column values for the ordered rows.  (pandas permits
duplicate column labels; operations below treat labels the way the
corresponding pandas calls do.) -/
structure PyDataFrame where
  cols : List (String × List PyVal)
deriving DecidableEq

/-- The column labels of a DataFrame, in order. -/
def PyDataFrame.columns (df : PyDataFrame) : List String := df.cols.map Prod.fst

/-- The number of rows of a DataFrame (the length of its first column;
all columns of a well-formed frame have equal length). -/
def nRows (df : PyDataFrame) : Nat :=
  match df.cols with
  | [] => 0
  | c :: _ => c.2.length

/-- The argument of a function whose Python parameter must be a DataFrame:
either an actual DataFrame or some other object. -/
inductive PyObj where
  | df (d : PyDataFrame)
  | other

/-- Embedded from `ben_python_utils/processing/dataframe.py`, `check_df(df)`:
raises `TypeError` unless the argument is a pandas DataFrame. -/
def check_df (df : PyObj) : Except PyErr Unit :=
  match df with
  | .df _ => .ok ()
  | .other => .error .typeError

/-- The argument of a `columns` parameter: a single column name, a list of
names, or an object of any other type. -/
inductive ColArg where
  | str (s : String)
  | list (l : List String)
  | other

/-- Embedded from `ben_python_utils/processing/dataframe.py`,
`check_column(columns)`: wraps a single string into a list, keeps a list,
and raises `TypeError` for any other shape. -/
def check_column (columns : ColArg) : Except PyErr (List String) :=
  match columns with
  | .str s => .ok [s]
  | .list l => .ok l
  | .other => .error .typeError

/-- Modelled from pandas: `DataFrame.__bool__` raises
`ValueError("The truth value of a DataFrame is ambiguous...")`
unconditionally, for empty and non-empty frames alike; `if not df:` in the
source therefore always raises. -/
def dfBool (_df : PyDataFrame) : Except PyErr Bool := .error .valueError

/-- The key of row `i` under the given column labels: the tuple of that
row's values in the selected columns (label lookup takes the first column
with that label, as `df[c]` does on a single match). -/
def dupKey (df : PyDataFrame) (column_list : List String) (i : Nat) :
    List (Option PyVal) :=
  column_list.map (fun c => (List.lookup c df.cols).bind (fun vs => vs.get? i))

/-- Modelled from pandas: `df.duplicated(column_list)` with the default
`keep` of first — row `i` is marked when an earlier row has the same key. -/
def duplicatedFwd (df : PyDataFrame) (column_list : List String) (i : Nat) :
    Bool :=
  (List.range i).any (fun j => dupKey df column_list j == dupKey df column_list i)

/-- Modelled from pandas: `df.duplicated(column_list, keep='last')` — row
`i` is marked when a later row has the same key. -/
def duplicatedBwd (df : PyDataFrame) (column_list : List String) (i : Nat) :
    Bool :=
  (List.range (nRows df)).any
    (fun j => i < j && dupKey df column_list j == dupKey df column_list i)

/-- Modelled from pandas: boolean-mask row selection `df[mask]` — every
column keeps exactly the values at the row positions the mask accepts. -/
def maskFilter (df : PyDataFrame) (mask : Nat → Bool) : PyDataFrame :=
  ⟨df.cols.map (fun c =>
    (c.1, ((List.range (nRows df)).filter mask).filterMap (fun i => c.2.get? i)))⟩

/-- Embedded from `ben_python_utils/processing/dataframe.py` (and the
historical copy `df_process.py`), `get_all_duplicate(df, column_list)`:
first `if not df:` — which evaluates pandas `DataFrame.__bool__` — then
`raise ValueError('DataFrame is empty')` on a falsy frame, else the union
of the forward and backward duplicated masks selects the rows. -/
def get_all_duplicate (df : PyDataFrame) (column_list : List String) :
    Except PyErr PyDataFrame :=
  match dfBool df with
  | .error e => .error e
  | .ok b =>
    if !b then .error .valueError
    else .ok (maskFilter df (fun i =>
      duplicatedFwd df column_list i || duplicatedBwd df column_list i))

/-- Column read `df[column]`: the first column with that label; a missing
label raises `KeyError`. -/
def dfGetCol (d : PyDataFrame) (c : String) : Except PyErr (List PyVal) :=
  match List.lookup c d.cols with
  | Option.none => .error .keyError
  | Option.some vs => .ok vs

/-- In-place column write `df.loc[:, column] = vals`: replaces the values
of every column with that label. -/
def dfSetCol (d : PyDataFrame) (c : String) (vs : List PyVal) : PyDataFrame :=
  ⟨d.cols.map (fun col => if col.1 = c then (col.1, vs) else col)⟩

/-- Modelled from pandas: `pd.to_datetime(values, format=fmt)` over a
column, abstracted over the parse function `parse` of the external library;
a value `parse` rejects raises `ValueError` and the whole column converts
only if every value parses. -/
def pdToDatetime (parse : PyVal → String → Option PyVal)
    (vs : List PyVal) (fmt : String) : Except PyErr (List PyVal) :=
  exceptMap (fun v =>
    match parse v fmt with
    | Option.some w => .ok w
    | Option.none => .error .valueError) vs

/-- The column loop of `convert_str_column_to_datetime`: converts the named
columns one at a time, writing each converted column into the frame before
the next is read.  An error carries the frame as already mutated by the
completed iterations, which is what the caller of the in-place pandas code
observes after the exception. -/
def convertLoop (parse : PyVal → String → Option PyVal) (d : PyDataFrame)
    (cols : List String) (fmt : String) :
    Except (PyErr × PyDataFrame) PyDataFrame :=
  match cols with
  | [] => .ok d
  | c :: rest =>
    match dfGetCol d c with
    | .error e => .error (e, d)
    | .ok vs =>
      match pdToDatetime parse vs fmt with
      | .error e => .error (e, d)
      | .ok vs2 => convertLoop parse (dfSetCol d c vs2) rest fmt

/-- Embedded from `ben_python_utils/processing/dataframe.py`,
`convert_str_column_to_datetime(df, columns, datetime_format)`: validates
`df` with `check_df` and `columns` with `check_column`, then runs the
in-place conversion loop.  An error carries the state of the caller's
DataFrame at the moment the exception escaped (`Option.none` when the
argument was not a DataFrame at all). -/
def convert_str_column_to_datetime (parse : PyVal → String → Option PyVal)
    (df : PyObj) (columns : ColArg) (datetime_format : String) :
    Except (PyErr × Option PyDataFrame) PyDataFrame :=
  match df with
  | .other => .error (.typeError, Option.none)
  | .df d =>
    match check_column columns with
    | .error e => .error (e, Option.some d)
    | .ok cols =>
      match convertLoop parse d cols datetime_format with
      | .error (e, d2) => .error (e, Option.some d2)
      | .ok d2 => .ok d2

/-- Modelled from pandas: `df.drop(c, axis=1)` removes every column whose
label is `c`. -/
def pdDrop (d : PyDataFrame) (c : String) : PyDataFrame :=
  ⟨d.cols.filter (fun col => col.1 != c)⟩

/-- The column loop of `drop_column`: drop each requested label that is
present, silently skipping absent ones. -/
def dropLoop (d : PyDataFrame) : List String → PyDataFrame
  | [] => d
  | c :: rest => dropLoop (if c ∈ d.columns then pdDrop d c else d) rest

/-- Embedded from `ben_python_utils/processing/dataframe.py`,
`drop_column(df, columns)`: validates the frame and the column spec, then
drops each named column that exists. -/
def drop_column (df : PyObj) (columns : ColArg) : Except PyErr PyDataFrame :=
  match df with
  | .other => .error .typeError
  | .df d =>
    match check_column columns with
    | .error e => .error e
    | .ok cols => .ok (dropLoop d cols)

/-- The ambient filesystem results the path functions depend on: the home
directory that `os.path.expanduser` substitutes, and the absolute forms of
the current and parent directories returned by `os.path.abspath`. -/
structure OsEnv where
  home : String
  cwdAbs : String
  parentAbs : String

/-- Python `s.startswith(p)`, computed on the character lists. -/
def pyStartsWith (s p : String) : Bool := p.data.isPrefixOf s.data

/-- A POSIX path is absolute when it starts with a slash. -/
def isAbs (p : String) : Bool := pyStartsWith p "/"

/-- Modelled from Python `os.path` (POSIX): `expanduser` replaces a leading
tilde with the home directory.  The multi-user form `~name`, which looks up
another account, is not modelled separately. -/
def expanduser (env : OsEnv) (p : String) : String :=
  if pyStartsWith p "~" then env.home ++ p.drop 1 else p

/-- Modelled from Python `os.path` (POSIX): `os.path.join(a, b)` for two
components — an absolute second component wins, otherwise the components
are glued with exactly one slash. -/
def posixJoin (a b : String) : String :=
  if isAbs b then b
  else if a = "" then b
  else if a.endsWith "/" then a ++ b
  else a ++ "/" ++ b

/-- Modelled from Python `os.path` (POSIX): `os.path.normcase` is the
identity on POSIX systems. -/
def normcase (p : String) : String := p

/-- Embedded from `ben_python_utils/io/file.py`,
`expand_relative_path(path)`: a leading `~` is expanded to the home
directory, a leading `..` (`os.path.pardir`) resolves against the absolute
parent directory after dropping `len(pardir) + 1` characters, a leading `.`
(`os.path.curdir`) resolves against the absolute current directory after
dropping `len(curdir) + 1` characters, and any other path is returned
as-is; the result always passes through `os.path.normcase`. -/
def expand_relative_path (env : OsEnv) (path : String) : String :=
  normcase
    (if pyStartsWith path "~" then expanduser env path
     else if pyStartsWith path ".." then posixJoin env.parentAbs (path.drop 3)
     else if pyStartsWith path "." then posixJoin env.cwdAbs (path.drop 2)
     else path)

/-- The sizes of the `n` contiguous parts determined by the split
boundaries: part `k` reaches from boundary `len * k / n` to boundary
`len * (k + 1) / n`. -/
def partSizes (len n : Nat) : List Nat :=
  (List.range n).map (fun k => len * (k + 1) / n - len * k / n)

/-- Cut a list at the given ascending positions, taking `a` as the start of
the first part: the parts are the slices between consecutive positions,
the last part running to the end of the list. -/
def cutFrom {α : Type} (s : List α) (a : Nat) : List Nat → List (List α)
  | [] => [s.drop a]
  | b :: rest => (s.take b).drop a :: cutFrom s b rest

/-- Cut a list at the given ascending positions, starting at the front. -/
def cutParts {α : Type} (s : List α) (bs : List Nat) : List (List α) :=
  cutFrom s 0 bs

/-- The expected sizes of the parts produced by `cutFrom`: differences of
consecutive cut positions, the last part running to `L`. -/
def szFrom (L a : Nat) : List Nat → List Nat
  | [] => [L - a]
  | b :: rest => (b - a) :: szFrom L b rest

/-- A concrete datetime parser for the external `pd.to_datetime` model:
exactly the string value `"2020"` parses. -/
def parse0 : PyVal → String → Option PyVal
  | .str s, _ => if s = "2020" then Option.some (.datetime 0) else Option.none
  | _, _ => Option.none

/-- A two-column DataFrame whose first column parses under `parse0` and
whose second column does not. -/
def df0 : PyDataFrame := ⟨[("A", [.str "2020"]), ("B", [.str "bad"])]⟩

/-- The state of `df0` after its first column has been converted: the
partially mutated frame a failing conversion of both columns leaves
behind. -/
def df1 : PyDataFrame := ⟨[("A", [.datetime 0]), ("B", [.str "bad"])]⟩

/-- A concrete five-element sequence used to witness the split-boundary
theorem. -/
def sampleRows : List PyVal :=
  [PyVal.int 1, PyVal.int 2, PyVal.int 3, PyVal.int 4, PyVal.int 5]

theorem pyGet_error {α : Type} (l : List α) (i : Int) (e : PyErr)
    (h : pyGet l i = .error e) : e = .indexError := by
  unfold pyGet at h
  split at h
  · exact absurd h (by simp)
  · injection h with h2
    exact h2.symm

theorem ctleLoop_error (cl : List PyVal) (t : PyType) :
    ∀ (l : List Int) (e : PyErr), ctleLoop cl t l = .error e → e = .indexError := by
  intro l
  induction l with
  | nil => intro e h; simp [ctleLoop] at h
  | cons idx rest ih =>
    intro e h
    cases hg : pyGet cl idx with
    | error e2 =>
      simp only [ctleLoop, hg] at h
      injection h with h2
      exact h2.symm.trans (pyGet_error cl idx e2 hg)
    | ok v =>
      simp only [ctleLoop, hg] at h
      split at h
      · exact absurd h (by simp)
      · exact ih e h

theorem exceptMap_ok {α β : Type} (f : α → Except PyErr β) (g : α → β) :
    ∀ l : List α, (∀ a ∈ l, f a = .ok (g a)) → exceptMap f l = .ok (l.map g) := by
  intro l
  induction l with
  | nil => intro _; rfl
  | cons a rest ih =>
    intro hall
    have ha := hall a (List.mem_cons_self a rest)
    have hrest := ih (fun b hb => hall b (List.mem_cons_of_mem a hb))
    simp [exceptMap, ha, hrest]

/-- C1.  The claim asserts `get_all_duplicate` fails only on a zero-row
DataFrame and otherwise returns the union of the forward- and
backward-duplicated rows.  In fact the guard `if not df:` evaluates pandas
`DataFrame.__bool__`, which raises a `ValueError` unconditionally, so the
function raises on every DataFrame — zero-row or not — and the duplicate
extraction after the guard is unreachable. -/
theorem get_all_duplicate_always_raises (df : PyDataFrame)
    (column_list : List String) :
    get_all_duplicate df column_list = .error .valueError := rfl

/-- C2.  Evaluation of `filter_duplicated_word` with `reverse=True` at the
specification's own example and at a second input.  On `"a b a c b"` the
code returns `"a b c"` — each word's first occurrence, not its last, so the
claimed result `"a c b"` is wrong — and on `"w x x w a w a"` it returns
`"w x x a"`, which contains the word `x` twice, contradicting the
function's documented promise of unique words: the loop pops
`tmp_list.index(word)`, the earliest occurrence, while iterating the
mutating list. -/
theorem filter_duplicated_word_reverse_eval :
    filter_duplicated_word "a b a c b" " " true = "a b c" ∧
      filter_duplicated_word "w x x w a w a" " " true = "w x x a" :=
  ⟨by decide, by decide⟩

/-- C3.  The claim asserts that with `indices` omitted every position is
checked and a Boolean returned.  In fact line 84 of `basic.py` iterates the
raw `index_list` argument — `None` — instead of the prepared `idx_list`,
so the call raises `TypeError` before any element is examined. -/
theorem check_type_list_element_default_raises (check_list : List PyVal)
    (check_type : PyType) :
    check_type_list_element check_list check_type IndexArg.omitted =
      .error .typeError := rfl

/-- C4.  With a list-shaped `index_list`, `check_type_list_element` raises
`ValueError` exactly when some index is at least the length of the index
list itself — the quirky bound of the source — and, since the left side
holds for every `check_list` whenever the right side does, the guard fires
before any element type is examined. -/
theorem check_type_list_element_index_guard_iff (check_list : List PyVal)
    (check_type : PyType) (il : List Int) :
    check_type_list_element check_list check_type (IndexArg.list il) =
        .error .valueError ↔
      ∃ i ∈ il, (il.length : Int) ≤ i := by
  simp only [check_type_list_element]
  by_cases hpos : 0 < (il.filter (fun idx => (il.length : Int) ≤ idx)).length
  · rw [if_pos hpos]
    constructor
    · intro _
      obtain ⟨x, hx⟩ := List.length_pos_iff_exists_mem.mp hpos
      obtain ⟨hmem, hp⟩ := List.mem_filter.mp hx
      exact ⟨x, hmem, of_decide_eq_true hp⟩
    · intro _
      rfl
  · rw [if_neg hpos]
    constructor
    · intro habs
      exact absurd (ctleLoop_error check_list check_type il _ habs) (by simp)
    · intro ⟨i, hi, hle⟩
      exact absurd (List.length_pos_iff_exists_mem.mpr
        ⟨i, List.mem_filter.mpr ⟨hi, decide_eq_true hle⟩⟩) hpos

/-- C10.  For a list-like or mapping argument and `split_n` at most one,
`get_split_index` returns the empty list and raises no division error: the
comprehension ranges over `range(split_n - 1)`, which is empty, so the
division by `split_n` is never evaluated. -/
theorem get_split_index_small_returns_nil (l : List PyVal) (d : PyDict)
    (n : Nat) (h : n ≤ 1) :
    get_split_index (SplitArg.list l) n = .ok [] ∧
      get_split_index (SplitArg.dict d) n = .ok [] := by
  have h0 : n - 1 = 0 := by omega
  constructor <;> simp [get_split_index, h0, exceptMap]

/-- Witness for C10 at `split_n = 0` on a concrete list and dictionary. -/
theorem get_split_index_small_returns_nil_witness :
    get_split_index (SplitArg.list [PyVal.int 1, PyVal.int 2]) 0 = .ok [] ∧
      get_split_index (SplitArg.dict [("a", PyVal.int 1)]) 0 = .ok [] :=
  get_split_index_small_returns_nil [PyVal.int 1, PyVal.int 2]
    [("a", PyVal.int 1)] 0 (by decide)

theorem dropLoop_single (d : PyDataFrame) (c : String) :
    dropLoop d [c] = if c ∈ d.columns then pdDrop d c else d := rfl

theorem not_mem_pdDrop_columns (d : PyDataFrame) (c : String) :
    c ∉ (pdDrop d c).columns := by
  intro h
  obtain ⟨col, hcol, hfst⟩ := List.mem_map.mp h
  obtain ⟨_, hp⟩ := List.mem_filter.mp hcol
  rw [hfst] at hp
  simp at hp

/-- C9.  `drop_column` with a single column name never fails, is idempotent
— the second application returns the same frame — and keeps every column
whose label differs from the dropped one. -/
theorem drop_column_idempotent (d : PyDataFrame) (c : String) :
    ∃ d2, drop_column (PyObj.df d) (ColArg.str c) = .ok d2 ∧
      drop_column (PyObj.df d2) (ColArg.str c) = .ok d2 ∧
      ∀ col ∈ d.cols, col.1 ≠ c → col ∈ d2.cols := by
  refine ⟨dropLoop d [c], rfl, ?_, ?_⟩
  · show Except.ok (dropLoop (dropLoop d [c]) [c]) = Except.ok (dropLoop d [c])
    by_cases hc : c ∈ d.columns
    · rw [dropLoop_single d c, if_pos hc, dropLoop_single,
        if_neg (not_mem_pdDrop_columns d c)]
    · rw [dropLoop_single d c, if_neg hc, dropLoop_single, if_neg hc]
  · intro col hcol hne
    rw [dropLoop_single]
    by_cases hc : c ∈ d.columns
    · rw [if_pos hc]
      exact List.mem_filter.mpr ⟨hcol, by simpa using hne⟩
    · rw [if_neg hc]
      exact hcol

/-- Witness for C9 on a concrete two-column frame. -/
theorem drop_column_idempotent_witness :
    ∃ d2, drop_column (PyObj.df ⟨[("a", [PyVal.int 1]), ("b", [PyVal.int 2])]⟩)
        (ColArg.str "a") = .ok d2 ∧
      drop_column (PyObj.df d2) (ColArg.str "a") = .ok d2 ∧
      ∀ col ∈ [("a", [PyVal.int 1]), ("b", [PyVal.int 2])], col.1 ≠ "a" →
        col ∈ d2.cols :=
  drop_column_idempotent ⟨[("a", [PyVal.int 1]), ("b", [PyVal.int 2])]⟩ "a"

theorem lookup_some_mem :
    ∀ {d : PyDict} {k : String} {v : PyVal},
      List.lookup k d = Option.some v → (k, v) ∈ d := by
  intro d
  induction d with
  | nil => intro k v h; simp [List.lookup] at h
  | cons hd tl ih =>
    intro k v h
    obtain ⟨k2, v2⟩ := hd
    by_cases hk : k = k2
    · simp only [List.lookup, hk, beq_self_eq_true] at h
      injection h with h2
      rw [hk, ← h2]
      exact List.mem_cons_self _ _
    · simp only [List.lookup, beq_eq_false_iff_ne.mpr hk] at h
      exact List.mem_cons_of_mem _ (ih h)

theorem mem_keys_lookup :
    ∀ {d : PyDict} {k : String},
      k ∈ pyKeys d → ∃ v, List.lookup k d = Option.some v := by
  intro d
  induction d with
  | nil => intro k h; simp [pyKeys] at h
  | cons hd tl ih =>
    intro k h
    obtain ⟨k2, v2⟩ := hd
    by_cases hk : k = k2
    · exact ⟨v2, by simp [List.lookup, hk]⟩
    · have h2 : k ∈ pyKeys tl := by
        rcases List.mem_cons.mp h with h1 | h1
        · exact absurd h1 hk
        · exact h1
      obtain ⟨v, hv⟩ := ih h2
      exact ⟨v, by simp [List.lookup, beq_eq_false_iff_ne.mpr hk, hv]⟩

theorem cdvLoop_ok_true (d : PyDict) (t : PyType) :
    ∀ l : List String, cdvLoop d t l = .ok true →
      ∀ k ∈ l, ∀ v, List.lookup k d = Option.some v → typeOf v = t := by
  intro l
  induction l with
  | nil => intro _ k hk; simp at hk
  | cons k2 rest ih =>
    intro h k hk v hv
    cases hl : List.lookup k2 d with
    | none => simp [cdvLoop, hl] at h
    | some v2 =>
      simp only [cdvLoop, hl] at h
      split at h
      · exact absurd h (by simp)
      · next hty =>
        rcases List.mem_cons.mp hk with hk1 | hk2
        · subst hk1
          rw [hl] at hv
          injection hv with hv2
          rw [← hv2]
          exact not_not.mp hty
        · exact ih h k hk2 v hv

theorem cdvLoop_all (d : PyDict) (t : PyType) :
    ∀ l : List String,
      (∀ k ∈ l, ∀ v, List.lookup k d = Option.some v → typeOf v = t) →
      (∀ k ∈ l, ∃ v, List.lookup k d = Option.some v) →
      cdvLoop d t l = .ok true := by
  intro l
  induction l with
  | nil => intro _ _; rfl
  | cons k2 rest ih =>
    intro hall hex
    obtain ⟨v2, hv2⟩ := hex k2 (List.mem_cons_self _ _)
    have ht2 : typeOf v2 = t := hall k2 (List.mem_cons_self _ _) v2 hv2
    have hrest := ih (fun k hk => hall k (List.mem_cons_of_mem _ hk))
      (fun k hk => hex k (List.mem_cons_of_mem _ hk))
    simp [cdvLoop, hv2, ht2, hrest]

theorem cdtLoop_typeError (d : PyDict) (t : PyType) :
    ∀ (l : List String) (k : String),
      cdtLoop d t l = .error (PyErr.typeError, k) →
      ∃ v, List.lookup k d = Option.some v ∧ typeOf v ≠ t := by
  intro l
  induction l with
  | nil => intro k h; simp [cdtLoop] at h
  | cons k2 rest ih =>
    intro k h
    cases hl : List.lookup k2 d with
    | none => simp [cdtLoop, hl] at h
    | some v2 =>
      simp only [cdtLoop, hl] at h
      split at h
      · next hty =>
        injection h with hp
        have hk : k2 = k := congrArg Prod.snd hp
        exact ⟨v2, hk ▸ hl, hty⟩
      · exact ih k h

/-- C6 counterexample.  The claim reads `checkMappingValueTypes(m, T)` as
true iff every value is an instance of `T`.  At the mapping
`{"k": True}` with `T = int`, every value is an instance of `int` —
Python booleans are a subclass of `int` — yet the function returns
`False`, because the source compares `type(v) != check_type` exactly. -/
theorem check_type_dict_value_not_instance_based :
    ¬ ((check_type_dict_value [("k", PyVal.bool true)] PyType.int
          KeysArg.omitted = Except.ok true) ↔
        ∀ p ∈ [("k", PyVal.bool true)], isInstance p.2 PyType.int = true) := by
  decide

/-- C6 as amended.  With no key list, `check_type_dict_value` returns true
iff every value of the mapping has exactly the expected runtime type
(`type(v) == T`; proper-subclass instances such as booleans for `int`
count as mismatches); and whenever the strict variant
`check_dict_value_type` raises its `TypeError`, the key it names is
genuinely offending — its value's type differs from `T`. -/
theorem check_type_dict_value_exact_type (d : PyDict) (t : PyType) :
    (check_type_dict_value d t KeysArg.omitted = .ok true ↔
      ∀ (k : String) (v : PyVal), List.lookup k d = Option.some v →
        typeOf v = t) ∧
    (∀ (ks : Option (List String)) (k : String),
      check_dict_value_type d t ks = .error (PyErr.typeError, k) →
      ∃ v, List.lookup k d = Option.some v ∧ typeOf v ≠ t) := by
  constructor
  · constructor
    · intro h k v hv
      have hk : k ∈ pyKeys d :=
        List.mem_map_of_mem Prod.fst (lookup_some_mem hv)
      exact cdvLoop_ok_true d t (pyKeys d) h k hk v hv
    · intro hall
      exact cdvLoop_all d t (pyKeys d)
        (fun k _ v hv => hall k v hv) (fun k hk => mem_keys_lookup hk)
  · intro ks k h
    cases ks with
    | none => exact cdtLoop_typeError d t (pyKeys d) k h
    | some l =>
      cases l with
      | nil => exact cdtLoop_typeError d t (pyKeys d) k h
      | cons a rest => exact cdtLoop_typeError d t (a :: rest) k h

/-- Witness for C6 on a concrete mapping whose single value has exactly the
expected type. -/
theorem check_type_dict_value_exact_type_witness :
    check_type_dict_value [("a", PyVal.int 3)] PyType.int KeysArg.omitted =
      .ok true :=
  (check_type_dict_value_exact_type [("a", PyVal.int 3)] PyType.int).1.mpr
    (by
      intro k v hv
      have hm := lookup_some_mem hv
      simp only [List.mem_singleton, Prod.mk.injEq] at hm
      rw [hm.2]
      rfl)

theorem convertLoop_error_prefix (parse : PyVal → String → Option PyVal)
    (fmt : String) :
    ∀ (cols : List String) (d : PyDataFrame) (e : PyErr) (d2 : PyDataFrame),
      convertLoop parse d cols fmt = .error (e, d2) →
      ∃ k, k ≤ cols.length ∧ convertLoop parse d (cols.take k) fmt = .ok d2 := by
  intro cols
  induction cols with
  | nil => intro d e d2 h; simp [convertLoop] at h
  | cons c rest ih =>
    intro d e d2 h
    cases hg : dfGetCol d c with
    | error e2 =>
      simp only [convertLoop, hg] at h
      injection h with hp
      have hd : d = d2 := congrArg Prod.snd hp
      exact ⟨0, Nat.zero_le _, by simp [convertLoop, hd]⟩
    | ok vs =>
      cases hp : pdToDatetime parse vs fmt with
      | error e2 =>
        simp only [convertLoop, hg, hp] at h
        injection h with hpr
        have hd : d = d2 := congrArg Prod.snd hpr
        exact ⟨0, Nat.zero_le _, by simp [convertLoop, hd]⟩
      | ok vs2 =>
        simp only [convertLoop, hg, hp] at h
        obtain ⟨k, hk, hh⟩ := ih (dfSetCol d c vs2) e d2 h
        refine ⟨k + 1, by simpa using Nat.succ_le_succ hk, ?_⟩
        simpa [convertLoop, hg, hp] using hh

/-- C5 counterexample.  The claim asserts the conversion is atomic: any
failing call leaves the DataFrame unmutated.  On the concrete two-column
frame `df0` with both columns requested, the first column parses and is
written in place, then the second column fails to parse — the call raises
with the frame already mutated to `df1`, which differs from `df0`. -/
theorem convert_str_column_to_datetime_not_atomic :
    convert_str_column_to_datetime parse0 (PyObj.df df0)
        (ColArg.list ["A", "B"]) "Y" =
      .error (PyErr.valueError, Option.some df1) ∧ df1 ≠ df0 :=
  ⟨rfl, by decide⟩

/-- C5 as amended.  A failing call of `convert_str_column_to_datetime` on a
genuine DataFrame is not atomic in general: either the column-spec
validation failed and the frame is untouched, or the frame left behind is
exactly the result of successfully converting some prefix of the requested
columns — the columns listed before the failing one stay converted. -/
theorem convert_str_column_to_datetime_partial_mutation
    (parse : PyVal → String → Option PyVal) (d : PyDataFrame)
    (columns : ColArg) (fmt : String) (e : PyErr) (d2 : PyDataFrame)
    (h : convert_str_column_to_datetime parse (PyObj.df d) columns fmt =
      .error (e, Option.some d2)) :
    (check_column columns = .error e ∧ d2 = d) ∨
    (∃ cols, check_column columns = .ok cols ∧
      ∃ k, k ≤ cols.length ∧ convertLoop parse d (cols.take k) fmt = .ok d2) := by
  cases columns with
  | other =>
    left
    simp only [convert_str_column_to_datetime, check_column] at h
    injection h with hp
    have he : PyErr.typeError = e := congrArg Prod.fst hp
    have hd : Option.some d = Option.some d2 := congrArg Prod.snd hp
    injection hd with hd2
    exact ⟨by rw [check_column, he], hd2.symm⟩
  | str s =>
    right
    refine ⟨[s], rfl, ?_⟩
    cases hcl : convertLoop parse d [s] fmt with
    | error p =>
      obtain ⟨e2, dd⟩ := p
      simp only [convert_str_column_to_datetime, check_column, hcl] at h
      injection h with hp
      have he : e2 = e := congrArg Prod.fst hp
      have hd : Option.some dd = Option.some d2 := congrArg Prod.snd hp
      injection hd with hd2
      exact convertLoop_error_prefix parse fmt [s] d e d2 (by rw [← he, ← hd2]; exact hcl)
    | ok dd =>
      simp [convert_str_column_to_datetime, check_column, hcl] at h
  | list l =>
    right
    refine ⟨l, rfl, ?_⟩
    cases hcl : convertLoop parse d l fmt with
    | error p =>
      obtain ⟨e2, dd⟩ := p
      simp only [convert_str_column_to_datetime, check_column, hcl] at h
      injection h with hp
      have he : e2 = e := congrArg Prod.fst hp
      have hd : Option.some dd = Option.some d2 := congrArg Prod.snd hp
      injection hd with hd2
      exact convertLoop_error_prefix parse fmt l d e d2 (by rw [← he, ← hd2]; exact hcl)
    | ok dd =>
      simp [convert_str_column_to_datetime, check_column, hcl] at h

/-- Witness for the C5 amended theorem at the concrete failing call: the
frame left behind, `df1`, is a successful conversion of the prefix
`["A"]` of the requested columns. -/
theorem convert_str_column_to_datetime_partial_mutation_witness :
    (check_column (ColArg.list ["A", "B"]) = .error PyErr.valueError ∧
      df1 = df0) ∨
    (∃ cols, check_column (ColArg.list ["A", "B"]) = .ok cols ∧
      ∃ k, k ≤ cols.length ∧ convertLoop parse0 df0 (cols.take k) "Y" = .ok df1) :=
  convert_str_column_to_datetime_partial_mutation parse0 df0
    (ColArg.list ["A", "B"]) "Y" PyErr.valueError df1 rfl

theorem isAbs_append (a b : String) (h : isAbs a = true) :
    isAbs (a ++ b) = true := by
  unfold isAbs pyStartsWith at h ⊢
  rw [List.isPrefixOf_iff_prefix] at h ⊢
  rw [String.data_append]
  exact h.trans (List.prefix_append a.data b.data)

theorem posixJoin_abs (a b : String) (h : isAbs a = true) :
    isAbs (posixJoin a b) = true := by
  unfold posixJoin
  split
  · next hb => exact hb
  · split
    · next ha => rw [ha] at h; exact absurd h (by decide)
    · split
      · exact isAbs_append a b h
      · exact isAbs_append (a ++ "/") b (isAbs_append a "/" h)

/-- C8 counterexample.  The claim asserts every result of
`expand_relative_path` is absolute; but a relative path that starts with
none of `~`, `..`, `.` — such as `"foo"` — is returned as-is (POSIX
`normcase` is the identity) and stays relative. -/
theorem expand_relative_path_not_always_absolute :
    isAbs (expand_relative_path ⟨"/root", "/cwd", "/parent"⟩ "foo") = false := by
  decide

/-- C8 as amended.  When the home, current and parent directories supplied
by the OS are absolute, `expand_relative_path` yields an absolute path for
every input starting with `~`, `..` or `.`; any other input is returned
unchanged — so a plain relative input remains relative and the result is
not always absolute. -/
theorem expand_relative_path_branch_absolute (env : OsEnv) (p : String)
    (hh : isAbs env.home = true) (hpar : isAbs env.parentAbs = true)
    (hcwd : isAbs env.cwdAbs = true) :
    ((pyStartsWith p "~" = true ∨ pyStartsWith p ".." = true ∨
        pyStartsWith p "." = true) →
      isAbs (expand_relative_path env p) = true) ∧
    (pyStartsWith p "~" = false → pyStartsWith p ".." = false →
      pyStartsWith p "." = false → expand_relative_path env p = p) := by
  unfold expand_relative_path normcase
  constructor
  · intro hor
    by_cases h1 : pyStartsWith p "~" = true
    · rw [if_pos h1]
      unfold expanduser
      rw [if_pos h1]
      exact isAbs_append env.home (p.drop 1) hh
    · rw [if_neg h1]
      by_cases h2 : pyStartsWith p ".." = true
      · rw [if_pos h2]
        exact posixJoin_abs _ _ hpar
      · rw [if_neg h2]
        have h3 : pyStartsWith p "." = true := by
          rcases hor with h | h | h
          · exact absurd h h1
          · exact absurd h h2
          · exact h
        rw [if_pos h3]
        exact posixJoin_abs _ _ hcwd
  · intro h1 h2 h3
    simp [h1, h2, h3]

/-- Witness for the C8 amended theorem: a home-relative input under an
absolute environment expands to an absolute path. -/
theorem expand_relative_path_branch_absolute_witness :
    isAbs (expand_relative_path ⟨"/root", "/cwd", "/parent"⟩ "~/x") = true :=
  (expand_relative_path_branch_absolute ⟨"/root", "/cwd", "/parent"⟩ "~/x"
    (by decide) (by decide) (by decide)).1 (Or.inl (by decide))

theorem div_add_div_le (a b n : Nat) (h : 0 < n) :
    a / n + b / n ≤ (a + b) / n := by
  rw [Nat.le_div_iff_mul_le h, Nat.add_mul]
  exact Nat.add_le_add (Nat.div_mul_le_self a n) (Nat.div_mul_le_self b n)

theorem div_add_div_ge (a b n : Nat) (h : 0 < n) :
    (a + b) / n ≤ a / n + b / n + 1 := by
  rw [Nat.add_div h]
  split <;> omega

theorem partSizes_lower (L n k : Nat) (h : 0 < n) :
    L / n ≤ L * (k + 1) / n - L * k / n := by
  have h1 : L * k / n + L / n ≤ L * (k + 1) / n := by
    rw [Nat.mul_succ]
    exact div_add_div_le (L * k) L n h
  omega

theorem partSizes_upper (L n k : Nat) (h : 0 < n) :
    L * (k + 1) / n - L * k / n ≤ L / n + 1 := by
  have h1 : L * (k + 1) / n ≤ L * k / n + L / n + 1 := by
    rw [Nat.mul_succ]
    exact div_add_div_ge (L * k) L n h
  rw [Nat.sub_le_iff_le_add]
  exact h1.trans (Nat.le_of_eq (by ac_rfl))

theorem partSizes_balanced (L n : Nat) (h : 0 < n) :
    ∀ x ∈ partSizes L n, ∀ y ∈ partSizes L n, x ≤ y + 1 := by
  intro x hx y hy
  obtain ⟨kx, _, hkx⟩ := List.mem_map.mp hx
  obtain ⟨ky, _, hky⟩ := List.mem_map.mp hy
  have h1 := partSizes_upper L n kx h
  have h2 := partSizes_lower L n ky h
  subst hkx
  subst hky
  omega

theorem cutFrom_length {α : Type} (s : List α) :
    ∀ (bs : List Nat) (a : Nat), (cutFrom s a bs).length = bs.length + 1 := by
  intro bs
  induction bs with
  | nil => intro a; rfl
  | cons b rest ih => intro a; simp [cutFrom, ih b]

theorem slice_append_drop {α : Type} (s : List α) (a b : Nat) (hab : a ≤ b)
    (hb : b ≤ s.length) : (s.take b).drop a ++ s.drop b = s.drop a := by
  conv_rhs => rw [← List.take_append_drop b s]
  rw [List.drop_append_eq_append_drop]
  have hlen : (s.take b).length = b := by
    rw [List.length_take]
    exact Nat.min_eq_left hb
  rw [hlen]
  have h0 : a - b = 0 := by omega
  rw [h0, List.drop_zero]

theorem cutFrom_flatten {α : Type} (s : List α) :
    ∀ (bs : List Nat) (a : Nat), List.Chain' (· ≤ ·) (a :: bs) →
      (∀ b ∈ bs, b ≤ s.length) →
      (cutFrom s a bs).flatten = s.drop a := by
  intro bs
  induction bs with
  | nil => intro a _ _; simp [cutFrom]
  | cons b rest ih =>
    intro a hchain hb
    have hab : a ≤ b := (List.chain'_cons.mp hchain).1
    have hbl : b ≤ s.length := hb b (List.mem_cons_self _ _)
    simp only [cutFrom, List.flatten_cons]
    rw [ih b (List.chain'_cons.mp hchain).2
      (fun x hx => hb x (List.mem_cons_of_mem _ hx))]
    exact slice_append_drop s a b hab hbl

theorem cutFrom_map_length {α : Type} (s : List α) :
    ∀ (bs : List Nat) (a : Nat), List.Chain' (· ≤ ·) (a :: bs) →
      (∀ b ∈ bs, b ≤ s.length) →
      (cutFrom s a bs).map List.length = szFrom s.length a bs := by
  intro bs
  induction bs with
  | nil => intro a _ _; simp [cutFrom, szFrom]
  | cons b rest ih =>
    intro a hchain hb
    have hbl : b ≤ s.length := hb b (List.mem_cons_self _ _)
    simp only [cutFrom, szFrom, List.map_cons]
    have hh : ((s.take b).drop a).length = b - a := by
      rw [List.length_drop, List.length_take, Nat.min_eq_left hbl]
    rw [hh, ih b (List.chain'_cons.mp hchain).2
      (fun x hx => hb x (List.mem_cons_of_mem _ hx))]

theorem szFrom_shift (L : Nat) (g : Nat → Nat) :
    ∀ (m a : Nat), szFrom L (g a) ((List.range' (a + 1) m).map g) =
      ((List.range' a m).map (fun k => g (k + 1) - g k)) ++ [L - g (a + m)] := by
  intro m
  induction m with
  | zero => intro a; simp [szFrom]
  | succ m ih =>
    intro a
    rw [List.range'_succ, List.map_cons]
    show (g (a + 1) - g a) :: szFrom L (g (a + 1))
        ((List.range' (a + 1 + 1) m).map g) = _
    rw [ih (a + 1)]
    rw [List.range'_succ, List.map_cons, List.cons_append]
    have hadd : a + 1 + m = a + (m + 1) := by omega
    rw [hadd]

theorem szFrom_eq_partSizes (L n : Nat) (h : 0 < n) :
    szFrom L 0 ((List.range (n - 1)).map (fun i => L * (i + 1) / n)) =
      partSizes L n := by
  have hn1 : n - 1 + 1 = n := by omega
  have h1 : (List.range (n - 1)).map (fun i => L * (i + 1) / n) =
      (List.range' 1 (n - 1)).map (fun k => L * k / n) := by
    rw [List.range'_eq_map_range, List.map_map]
    apply List.map_congr_left
    intro a _
    show L * (a + 1) / n = L * (1 + a) / n
    rw [Nat.add_comm a 1]
  rw [h1]
  have h0 : szFrom L 0 = szFrom L (L * 0 / n) := by simp
  rw [h0]
  have h2 := szFrom_shift L (fun k => L * k / n) (n - 1) 0
  simp only [Nat.zero_add] at h2
  rw [h2]
  unfold partSizes
  rw [← List.range_eq_range']
  have h4 : List.range n = List.range (n - 1) ++ [n - 1] := by
    conv_lhs => rw [← hn1]
    exact List.range_succ (n - 1)
  rw [h4, List.map_append, List.map_cons, List.map_nil]
  congr 1
  have h3 : L * (n - 1 + 1) / n = L := by rw [hn1, Nat.mul_div_cancel L h]
  rw [h3]

/-- C7.  For every sequence and every `n` of at least one,
`get_split_index` returns normally with exactly `n - 1` non-decreasing cut
points, each within the sequence length, computed as
`floor(len * (i + 1) / n)`; cutting the sequence at those points yields `n`
contiguous parts that concatenate back to the sequence and whose sizes
pairwise differ by at most one. -/
theorem get_split_index_boundaries (s : List PyVal) (n : Nat) (hn : 1 ≤ n) :
    ∃ bs, get_split_index (SplitArg.list s) n = Except.ok bs ∧
      bs.length = n - 1 ∧
      bs = (List.range (n - 1)).map (fun i => s.length * (i + 1) / n) ∧
      List.Pairwise (· ≤ ·) bs ∧
      (∀ b ∈ bs, b ≤ s.length) ∧
      (cutParts s bs).length = n ∧
      (cutParts s bs).flatten = s ∧
      (cutParts s bs).map List.length = partSizes s.length n ∧
      (∀ x ∈ partSizes s.length n, ∀ y ∈ partSizes s.length n, x ≤ y + 1) := by
  have h0 : 0 < n := hn
  refine ⟨(List.range (n - 1)).map (fun i => s.length * (i + 1) / n),
    ?_, by simp, rfl, ?_, ?_, ?_, ?_, ?_, partSizes_balanced s.length n h0⟩
  case _ =>
    unfold get_split_index
    exact exceptMap_ok _ (fun i => s.length * (i + 1) / n) _
      (fun a _ => by unfold pyDivNat; rw [if_neg (by omega)])
  all_goals {
    have hmono : List.Pairwise (· ≤ ·)
        ((List.range (n - 1)).map (fun i => s.length * (i + 1) / n)) := by
      rw [List.pairwise_map]
      refine List.Pairwise.imp ?_ (List.pairwise_lt_range (n - 1))
      intro i j hij
      exact Nat.div_le_div_right (Nat.mul_le_mul_left s.length (by omega))
    have hbound : ∀ b ∈ (List.range (n - 1)).map
        (fun i => s.length * (i + 1) / n), b ≤ s.length := by
      intro b hb
      obtain ⟨i, hi, hib⟩ := List.mem_map.mp hb
      rw [← hib]
      have hi2 : i + 1 ≤ n := by
        rw [List.mem_range] at hi
        omega
      calc s.length * (i + 1) / n ≤ s.length * n / n :=
          Nat.div_le_div_right (Nat.mul_le_mul_left s.length hi2)
        _ = s.length := Nat.mul_div_cancel s.length h0
    have hchain : List.Chain' (· ≤ ·)
        (0 :: (List.range (n - 1)).map (fun i => s.length * (i + 1) / n)) := by
      rw [List.chain'_iff_pairwise]
      exact List.pairwise_cons.mpr ⟨fun b _ => Nat.zero_le b, hmono⟩
    first
    | exact hmono
    | exact hbound
    | (unfold cutParts
       rw [cutFrom_length]
       simp
       omega)
    | (unfold cutParts
       rw [cutFrom_flatten s _ 0 hchain hbound]
       exact List.drop_zero s)
    | (unfold cutParts
       rw [cutFrom_map_length s _ 0 hchain hbound]
       exact szFrom_eq_partSizes s.length n h0)
  }

/-- Witness for C7 on a concrete five-element sequence split three ways. -/
theorem get_split_index_boundaries_witness :
    ∃ bs, get_split_index (SplitArg.list sampleRows) 3 = Except.ok bs ∧
      bs.length = 3 - 1 ∧
      bs = (List.range (3 - 1)).map (fun i => sampleRows.length * (i + 1) / 3) ∧
      List.Pairwise (· ≤ ·) bs ∧
      (∀ b ∈ bs, b ≤ sampleRows.length) ∧
      (cutParts sampleRows bs).length = 3 ∧
      (cutParts sampleRows bs).flatten = sampleRows ∧
      (cutParts sampleRows bs).map List.length = partSizes sampleRows.length 3 ∧
      (∀ x ∈ partSizes sampleRows.length 3,
        ∀ y ∈ partSizes sampleRows.length 3, x ≤ y + 1) :=
  get_split_index_boundaries sampleRows 3 (by decide)

end PyUtils
